import Mathlib

/-!
# ShelfEngine hybrid retrieval engine — shallow embedding

This file embeds the search core of the ShelfEngine repository in Lean 4 and
proves properties of it.  The embedded sources are:

* `src/search/retrieval.ts` — whole-word/phrase field matching, junk/recency
  predicates, cosine similarity, semantic top-K, keyword-signal inference,
  exclude / OR-group validation;
* `src/search/queryParse.ts` — the query-operator parser;
* `src/search/miniIndex.ts` — the cached global lexical index (its cache
  state machine; the MiniSearch library itself is external);
* `src/search/searchService.ts` (MiniSearch-integrated version) — the fusion
  and ranking pipeline `search`.

Modelling conventions:

* JavaScript numbers are modelled as exact rationals (`ℚ`).  IEEE-754
  rounding is outside the model.
* The ambient library's `Rat.add/sub/mul/div` are `@[irreducible]`, which
  blocks concrete evaluation by `decide`; the definitions therefore use
  executable copies (`qadd`, `qsub`, `qmul`, `qdiv`) built on `mkRat`,
  proved below to agree with the field operations of `ℚ`.
* `Math.sqrt` (used only inside cosine similarity) is modelled by `ratSqrt`,
  exact on perfect squares of rationals — the only inputs exercised by the
  concrete developments in this file — and `0` elsewhere (where the true
  value would be irrational and not representable in `ℚ`).
* Strings are processed over `List Char` with ASCII semantics for `\w`,
  `\s`, case folding and word boundaries, matching the JS regexes on the
  ASCII inputs the engine handles.
* External collaborators are oracle inputs of the model (`SearchEnv`): the
  Dexie tables (`db.bookmarks`, `db.embeddings`), the MiniSearch result list
  for the query (`mini.search` is an external library; only the shape of its
  result is fixed), the query embedding vector, and the clock.
-/

/-! ## Executable rational arithmetic -/

/-- Executable addition on `ℚ` (see the header: `Rat.add` is irreducible). -/
def qadd (a b : ℚ) : ℚ := mkRat (a.num * b.den + b.num * a.den) (a.den * b.den)

/-- Executable subtraction on `ℚ`. -/
def qsub (a b : ℚ) : ℚ := mkRat (a.num * b.den - b.num * a.den) (a.den * b.den)

/-- Executable multiplication on `ℚ`. -/
def qmul (a b : ℚ) : ℚ := mkRat (a.num * b.num) (a.den * b.den)

/-- Executable division on `ℚ`.  Division by `0` yields `0`, matching the
`x / 0 = 0` convention of `ℚ`; every division in the embedded code is guarded
so that the divisor is nonzero (JS would produce `Infinity` there). -/
def qdiv (a b : ℚ) : ℚ :=
  if 0 ≤ b.num then mkRat (a.num * b.den) (a.den * b.num.natAbs)
  else mkRat (-(a.num * b.den)) (a.den * b.num.natAbs)

/-- Executable embedding of a `Nat` into `ℚ`. -/
def qofNat (n : ℕ) : ℚ := mkRat n 1

/-- `Math.max(0, Math.min(1, x))` — the clamp used on final scores. -/
def qclamp01 (x : ℚ) : ℚ := max 0 (min 1 x)

/-! ## ASCII string helpers (JS `\w`, `\s`, case folding) -/

/-- JS `\w` = `[A-Za-z0-9_]` (ASCII). -/
def isWordChar (c : Char) : Bool := c.isAlphanum || c = Char.ofNat 95

/-- JS `\s` (the ASCII part; the engine's inputs are ASCII). -/
def isSpaceChar (c : Char) : Bool := c.isWhitespace

/-- `String.prototype.toLowerCase` (ASCII case folding). -/
def lowerStr (s : String) : String := String.mk (s.data.map Char.toLower)

/-- `trim` on a character list. -/
def trimChars (l : List Char) : List Char :=
  ((l.dropWhile isSpaceChar).reverse.dropWhile isSpaceChar).reverse

/-- `String.prototype.trim`. -/
def trimStr (s : String) : String := String.mk (trimChars s.data)

/-- `.replace(/\s+/g, ' ')`: collapse every whitespace run to one space. -/
def collapseWsAux : List Char → Bool → List Char
  | [], _ => []
  | c :: rest, prevSpace =>
    if isSpaceChar c then
      if prevSpace then collapseWsAux rest true
      else ' ' :: collapseWsAux rest true
    else c :: collapseWsAux rest false

/-- `.replace(/\s+/g, ' ')` on a character list. -/
def collapseWs (l : List Char) : List Char := collapseWsAux l false

/-- Containment of `needle` in `hay` as a plain substring
(`String.prototype.includes`). -/
def listContainsSub (hay needle : List Char) : Bool :=
  (List.range (hay.length + 1)).any fun i =>
    decide ((hay.drop i).take needle.length = needle)

/-- The character at position `i` is a word character (out of range: no). -/
def wordCharAt (s : List Char) (i : Nat) : Bool :=
  match s.get? i with
  | some c => isWordChar c
  | none => false

/-- JS regex `\b`: position `i` of `s` is a word boundary iff exactly one of
the neighbouring positions holds a word character (out of range counts as
non-word). -/
def isBoundary (s : List Char) (i : Nat) : Bool :=
  (if i = 0 then false else wordCharAt s (i - 1)) != wordCharAt s i

/-- Join a list of character lists with a separator (`Array.prototype.join`). -/
def joinSep (sep : List Char) : List (List Char) → List Char
  | [] => []
  | [x] => x
  | x :: xs => x ++ sep ++ joinSep sep xs

/-- `[...new Set(l)]`: deduplicate keeping the first occurrence of each
element, in order (JS `Set` insertion order). -/
def dedupFirstAux {α : Type} [DecidableEq α] (seen : List α) : List α → List α
  | [] => []
  | x :: xs =>
    if seen.contains x then dedupFirstAux seen xs
    else x :: dedupFirstAux (x :: seen) xs

/-- `[...new Set(l)]` (see `dedupFirstAux`). -/
def dedupFirst {α : Type} [DecidableEq α] (l : List α) : List α :=
  dedupFirstAux [] l

/-- Lookup in a JS `Map` built with `new Map(entries)`: the last entry for a
key wins. -/
def mapGet {α : Type} (entries : List (Nat × α)) (k : Nat) : Option α :=
  (entries.reverse.find? fun e => e.1 = k).map (·.2)

/-- `Map.prototype.entries` order: first-insertion order of keys, each with
the value of its last entry. -/
def mapEntries {α : Type} (entries : List (Nat × α)) : List (Nat × α) :=
  (dedupFirst (entries.map (·.1))).filterMap fun k => (mapGet entries k).map (k, ·)

/-! ## Stable sorting (JS `Array.prototype.sort` with a numeric comparator)

`arr.sort((a, b) => key b - key a)` is a stable descending sort.  A stable
sort's output is determined by the comparator alone, so the embedding may use
insertion sort: `gt y x = true` means `y` must precede `x` strictly. -/

/-- Insert `x` (originally earlier than everything in the list) into a sorted
list: pass the strictly-greater elements, stop at the first tie-or-smaller. -/
def insertDesc {α : Type} (gt : α → α → Bool) (x : α) : List α → List α
  | [] => [x]
  | y :: ys => if gt y x then y :: insertDesc gt x ys else x :: y :: ys

/-- Stable sort placing `a` before `b` whenever `gt a b = true`, preserving
the input order of ties — the observable behaviour of JS `Array.sort` with
comparator `(a, b) => (if gt a b then -1 else if gt b a then 1 else 0)`. -/
def stableSortBy {α : Type} (gt : α → α → Bool) : List α → List α
  | [] => []
  | x :: xs => insertDesc gt x (stableSortBy gt xs)

/-! ## Data model (`src/db/index.ts`) -/

/-- A bookmark row (`Bookmark` in `src/db/index.ts`).  `addDate` is epoch
seconds (or absent), `createdAt` epoch milliseconds. -/
structure Bookmark where
  id : Option Nat
  url : String
  title : String
  domain : String
  folderPath : String
  addDate : Option Int
  createdAt : Int
deriving DecidableEq, Repr

/-- An embedding row projected to the fields the search core reads
(`{bookmarkId, vector}`). -/
structure EmbeddingRow where
  bookmarkId : Nat
  vector : List ℚ
deriving DecidableEq, Repr

/-! ## `src/search/retrieval.ts` -/

/-- `termMatchesField(term, field)`: whole-word, case-insensitive match of
`term` in `field` (`new RegExp('\\b' + term + '\\b', 'i')`), refused below
the minimum term length 2. -/
def termMatchesField (term field : String) : Bool :=
  if term.length < 2 then false
  else
    let t := term.data.map Char.toLower
    let f := field.data.map Char.toLower
    (List.range (f.length + 1)).any fun i =>
      decide ((f.drop i).take t.length = t) && isBoundary f i &&
        isBoundary f (i + t.length)

/-- `phraseMatchesField(text, phrase)`: case-insensitive substring
containment; empty phrase or empty text never match. -/
def phraseMatchesField (text phrase : String) : Bool :=
  if phrase.data = [] || text.data = [] then false
  else listContainsSub (text.data.map Char.toLower) (phrase.data.map Char.toLower)

/-- `isJunkTitle(title)`: trimmed lowercase title shorter than 4 characters,
or equal to "home" or "untitled". -/
def isJunkTitle (title : String) : Bool :=
  let t := trimChars (title.data.map Char.toLower)
  decide (t.length < 4) || decide (t = "home".data) || decide (t = "untitled".data)

/-- `isRecent(bookmark)` at clock `now` (epoch seconds): the bookmark's
`addDate`, falling back to `createdAt` milliseconds floored to seconds, is
within 7 days of `now`. -/
def isRecent (now : Int) (b : Bookmark) : Bool :=
  let dateSec := b.addDate.getD (b.createdAt.fdiv 1000)
  decide (now - dateSec ≤ 7 * 24 * 3600)

/-- Exact square root of a natural number, if it is a perfect square. -/
def natSqrtExact (n : Nat) : Option Nat :=
  (List.range (n + 1)).find? fun k => k * k == n

/-- Model of `Math.sqrt` on `ℚ` (see the file header): exact on perfect
squares, `0` otherwise. -/
def ratSqrt (q : ℚ) : ℚ :=
  match natSqrtExact q.num.toNat, natSqrtExact q.den with
  | some sn, some sd => mkRat sn sd
  | _, _ => 0

/-- `cosineSimilarity(a, b)`: dot product over the product of L2 norms;
`0` on length mismatch or zero denominator. -/
def cosineSimilarity (a b : List ℚ) : ℚ :=
  if a.length ≠ b.length then 0
  else
    let dot := (a.zip b).foldl (fun acc p => qadd acc (qmul p.1 p.2)) 0
    let normA := a.foldl (fun acc x => qadd acc (qmul x x)) 0
    let normB := b.foldl (fun acc x => qadd acc (qmul x x)) 0
    let denom := qmul (ratSqrt normA) (ratSqrt normB)
    if denom = 0 then 0 else qdiv dot denom

/-- A semantic hit (`SemanticHit`). -/
structure SemanticHit where
  bookmarkId : Nat
  score : ℚ
deriving DecidableEq, Repr

/-- An item handed to the semantic retriever. -/
structure SemItem where
  bookmarkId : Nat
  vector : List ℚ
deriving DecidableEq, Repr

/-- `semanticTopK(items, queryVector, k)`: score by cosine similarity, sort
descending (stable), truncate to `k`. -/
def semanticTopK (items : List SemItem) (queryVector : List ℚ) (k : Nat) :
    List SemanticHit :=
  let scored := items.map fun it =>
    SemanticHit.mk it.bookmarkId (cosineSimilarity it.vector queryVector)
  (stableSortBy (fun a b => decide (b.score < a.score)) scored).take k

/-- The four indexed fields (`MatchedIn`). -/
inductive MatchedIn where
  | title
  | url
  | folderPath
  | domain
deriving DecidableEq, Repr

/-- A matched phrase record `{phrase, field}`. -/
structure MatchedPhrase where
  phrase : String
  field : MatchedIn
deriving DecidableEq, Repr

/-- A keyword hit (`KeywordHit`); `matchedPhrases` is an optional field in
the source. -/
structure KeywordHit where
  bookmarkId : Nat
  matchedTerms : List String
  matchedIn : List MatchedIn
  score : ℚ
  matchedPhrases : Option (List MatchedPhrase)
deriving DecidableEq, Repr

/-- The raw (not yet lowercased) text of one of a bookmark's four fields. -/
def fieldVal (b : Bookmark) : MatchedIn → String
  | .title => b.title
  | .url => b.url
  | .folderPath => b.folderPath
  | .domain => b.domain

/-- The lowercased field list `[{key, value}, ...]` recomputed per call in
`inferKeywordSignals` (order: title, url, folderPath, domain). -/
def fieldsOf (b : Bookmark) : List (MatchedIn × String) :=
  [(MatchedIn.title, lowerStr b.title), (MatchedIn.url, lowerStr b.url),
   (MatchedIn.folderPath, lowerStr b.folderPath), (MatchedIn.domain, lowerStr b.domain)]

/-- Output of `inferKeywordSignals` (a `KeywordHit` without id and score). -/
structure InferredSignals where
  matchedTerms : List String
  matchedIn : List MatchedIn
  matchedPhrases : Option (List MatchedPhrase)
deriving DecidableEq, Repr

/-- One step of the term loop of `inferKeywordSignals`: try one term against
one field, pushing term and field if they are not yet recorded. -/
def inferStep (term : String) (acc : List String × List MatchedIn)
    (fld : MatchedIn × String) : List String × List MatchedIn :=
  if termMatchesField term fld.2 then
    (if acc.1.contains term then acc.1 else acc.1 ++ [term],
     if acc.2.contains fld.1 then acc.2 else acc.2 ++ [fld.1])
  else acc

/-- `inferKeywordSignals(bookmark, parsed)` minus the phrase part: fold every
term over the four fields. -/
def inferTerms (b : Bookmark) (terms : List String) :
    List String × List MatchedIn :=
  terms.foldl (fun acc term => (fieldsOf b).foldl (inferStep term) acc) ([], [])

/-- The phrase part of `inferKeywordSignals`: for each phrase, the first
field (in order) containing it. -/
def inferPhrases (b : Bookmark) (phrases : List String) : List MatchedPhrase :=
  phrases.foldl
    (fun acc phrase =>
      match (fieldsOf b).find? (fun fld => phraseMatchesField fld.2 phrase) with
      | some fld => acc ++ [MatchedPhrase.mk phrase fld.1]
      | none => acc)
    []

/-- `bookmarkMatchesExclude(b, excludeTerms)`: some exclude term whole-word
matches some of the four fields. -/
def bookmarkMatchesExclude (b : Bookmark) (excludeTerms : List String) : Bool :=
  if excludeTerms = [] then false
  else
    excludeTerms.any fun term =>
      termMatchesField term (lowerStr b.title) ||
      termMatchesField term (lowerStr b.url) ||
      termMatchesField term (lowerStr b.folderPath) ||
      termMatchesField term (lowerStr b.domain)

/-- `bookmarkMatchesOrGroup(b, terms)`: the group is nonempty and every term
in it whole-word matches at least one field. -/
def bookmarkMatchesOrGroup (b : Bookmark) (terms : List String) : Bool :=
  if terms = [] then false
  else
    terms.all fun term =>
      termMatchesField term (lowerStr b.title) ||
      termMatchesField term (lowerStr b.url) ||
      termMatchesField term (lowerStr b.folderPath) ||
      termMatchesField term (lowerStr b.domain)

/-! ## `src/search/queryParse.ts` -/

/-- The parsed query (`ParsedQuery`). -/
structure ParsedQuery where
  terms : List String
  excludeTerms : List String
  phrases : List String
  domain : Option String
  folder : Option String
  orGroups : List (List String)
  searchText : String
deriving DecidableEq, Repr

/-- `inferKeywordSignals(bookmark, parsed)` (back in `retrieval.ts`; stated
here because it consumes `ParsedQuery`). -/
def inferKeywordSignals (b : Bookmark) (parsed : ParsedQuery) : InferredSignals :=
  let tm := inferTerms b parsed.terms
  let mp := inferPhrases b parsed.phrases
  { matchedTerms := tm.1, matchedIn := tm.2,
    matchedPhrases := if mp ≠ [] then some mp else none }

/-- Maximal runs of word characters (the nonempty pieces of
`split(/\W+/)`). -/
def wordRunsAux : List Char → List Char → List (List Char)
  | [], acc => if acc = [] then [] else [acc.reverse]
  | c :: rest, acc =>
    if isWordChar c then wordRunsAux rest (c :: acc)
    else if acc = [] then wordRunsAux rest []
    else acc.reverse :: wordRunsAux rest []

/-- Maximal word-character runs of a character list. -/
def wordRuns (l : List Char) : List (List Char) := wordRunsAux l []

/-- `tokenize(s)`: lowercase, collapse whitespace, split on `\W+`, keep
tokens of length at least 2. -/
def tokenizeChars (l : List Char) : List (List Char) :=
  (wordRuns (collapseWs (l.map Char.toLower))).filter fun t => 2 ≤ t.length

/-- Match `\b<key><capture of \S+>` at position `i` of `l`, the key compared
case-insensitively; returns (full match, capture). -/
def matchKeyCapAt (l : List Char) (i : Nat) (key : List Char) :
    Option (List Char × List Char) :=
  if isBoundary l i then
    let sub := l.drop i
    if (sub.take key.length).map Char.toLower = key then
      let rest := sub.drop key.length
      let cap := rest.takeWhile fun c => !isSpaceChar c
      if cap = [] then none else some (sub.take key.length ++ cap, cap)
    else none
  else none

/-- One attempt of `/\b(?:site|domain):(\S+)/i` at position `i` ("site"
tried before "domain", as regex alternation does). -/
def matchSiteAt (l : List Char) (i : Nat) : Option (List Char × List Char) :=
  matchKeyCapAt l i "site:".data <|> matchKeyCapAt l i "domain:".data

/-- One attempt of `/\bfolder:(?:"([^"]*)"|(\S+))/i` at position `i`: the
quoted alternative is tried first; without a closing quote the regex
backtracks to the `\S+` alternative. -/
def matchFolderAt (l : List Char) (i : Nat) : Option (List Char × List Char) :=
  if isBoundary l i then
    let sub := l.drop i
    let key := "folder:".data
    if (sub.take key.length).map Char.toLower = key then
      let rest := sub.drop key.length
      match rest with
      | q :: tail =>
        if q = '"' then
          let content := tail.takeWhile fun d => d ≠ '"'
          if content.length < tail.length then
            some (sub.take key.length ++ q :: content ++ [q], content)
          else
            let cap := rest.takeWhile fun c => !isSpaceChar c
            if cap = [] then none else some (sub.take key.length ++ cap, cap)
        else
          let cap := rest.takeWhile fun c => !isSpaceChar c
          if cap = [] then none else some (sub.take key.length ++ cap, cap)
      | [] => none
    else none
  else none

/-- `str.replace(pat, rep)` with a *string* pattern: replace the first plain
occurrence of `pat`, or return `l` unchanged. -/
def replaceFirstSub (l pat rep : List Char) : List Char :=
  match (List.range (l.length + 1)).find?
      (fun i => decide ((l.drop i).take pat.length = pat)) with
  | none => l
  | some i => l.take i ++ rep ++ l.drop (i + pat.length)

/-- The global scan of `/"([^"]+)"/g` (fuel-based so that the kernel can
evaluate it; the fuel always suffices because every step consumes at least
one character): all captures in order, and the input with every match
replaced by one space (the code collects with an `exec` loop and then
replaces with the same regex). -/
def phraseScanF : Nat → List Char → List (List Char) × List Char
  | 0, _ => ([], [])
  | _ + 1, [] => ([], [])
  | f + 1, c :: rest =>
    if c = '"' then
      let content := rest.takeWhile fun d => d ≠ '"'
      if content ≠ [] ∧ content.length < rest.length then
        let p := phraseScanF f (rest.drop (content.length + 1))
        (content :: p.1, ' ' :: p.2)
      else
        let p := phraseScanF f rest
        (p.1, c :: p.2)
    else
      let p := phraseScanF f rest
      (p.1, c :: p.2)

/-- The global scan of `/"([^"]+)"/g` (see `phraseScanF`). -/
def phraseScan (l : List Char) : List (List Char) × List Char :=
  phraseScanF (l.length + 1) l

/-- `[a-zA-Z0-9]`. -/
def isAlnumChar (c : Char) : Bool := c.isAlphanum

/-- The lookahead `(?=\s|$)`. -/
def lookaheadOk : List Char → Bool
  | [] => true
  | d :: _ => isSpaceChar d

/-- The global scan of `/(?:^|\s)-([a-zA-Z0-9]+)(?=\s|$)/g`: all captures in
order, and the input with every match (leading whitespace included)
replaced by one space.  The `Bool` is true only at the very start of the
string (the `^` alternative).  Fuel-based (see `phraseScanF`). -/
def excludeScanF : Nat → List Char → Bool → List (List Char) × List Char
  | 0, _, _ => ([], [])
  | _ + 1, [], _ => ([], [])
  | f + 1, c :: rest, atStart =>
    if atStart ∧ c = '-' then
      let run := rest.takeWhile isAlnumChar
      if run ≠ [] ∧ lookaheadOk (rest.drop run.length) then
        let p := excludeScanF f (rest.drop run.length) false
        (run :: p.1, ' ' :: p.2)
      else
        let p := excludeScanF f rest false
        (p.1, c :: p.2)
    else
      match rest with
      | d :: rest2 =>
        if isSpaceChar c ∧ d = '-' then
          let run := rest2.takeWhile isAlnumChar
          if run ≠ [] ∧ lookaheadOk (rest2.drop run.length) then
            let p := excludeScanF f (rest2.drop run.length) false
            (run :: p.1, ' ' :: p.2)
          else
            let p := excludeScanF f rest false
            (p.1, c :: p.2)
        else
          let p := excludeScanF f rest false
          (p.1, c :: p.2)
      | [] => ([], [c])

/-- The exclude-operator scan (see `excludeScanF`). -/
def excludeScan (l : List Char) (atStart : Bool) : List (List Char) × List Char :=
  excludeScanF (l.length + 1) l atStart

/-- `rest.split(/\s+OR\s+/i)` on an already whitespace-collapsed string:
scan left to right for `<space>OR<space>` (case-insensitive).  Fuel-based
(see `phraseScanF`). -/
def splitORAuxF : Nat → List Char → List Char → List (List Char)
  | 0, _, acc => [acc.reverse]
  | _ + 1, [], acc => [acc.reverse]
  | f + 1, c :: rest, acc =>
    match rest with
    | o :: r :: sp :: tail =>
      if isSpaceChar c ∧ Char.toLower o = 'o' ∧ Char.toLower r = 'r' ∧
          isSpaceChar sp then
        acc.reverse :: splitORAuxF f tail []
      else splitORAuxF f rest (c :: acc)
    | _ => splitORAuxF f rest (c :: acc)

/-- The OR-separator split (see `splitORAuxF`). -/
def splitORAux (l acc : List Char) : List (List Char) :=
  splitORAuxF (l.length + 1) l acc

/-- `parseQuery(raw)`.  The `try` body contains no throwing operation, so
the `catch` fallback of the source is unreachable and not modelled. -/
def parseQuery (raw : String) : ParsedQuery :=
  let trimmed := trimChars raw.data
  if trimmed = [] then
    { terms := [], excludeTerms := [], phrases := [], domain := none,
      folder := none, orGroups := [], searchText := "" }
  else
    let siteM := ((List.range (trimmed.length + 1)).filterMap
      (fun i => matchSiteAt trimmed i)).head?
    let domainResult := siteM.map fun m => m.2
    let rest1 := match siteM with
      | some m => trimChars (collapseWs (replaceFirstSub trimmed m.1 [' ']))
      | none => trimmed
    let folderM := ((List.range (rest1.length + 1)).filterMap
      (fun i => matchFolderAt rest1 i)).head?
    let folderResult := folderM.map fun m => trimChars m.2
    let rest2 := match folderM with
      | some m => trimChars (collapseWs (replaceFirstSub rest1 m.1 [' ']))
      | none => rest1
    let pscan := phraseScan rest2
    let phrases := pscan.1.map trimChars
    let rest3 := trimChars (collapseWs pscan.2)
    let escan := excludeScan rest3 true
    let excludeTerms := (escan.1.map (fun t => t.map Char.toLower)).filter
      fun t => 2 ≤ t.length
    let rest4 := trimChars (collapseWs escan.2)
    let orParts := splitORAux rest4 []
    let orGroups0 := (orParts.map tokenizeChars).filter fun g => g ≠ []
    let terms := match orGroups0 with
      | [g] => g
      | gs => gs.flatten
    let searchText := joinSep [' '] (dedupFirst (terms ++ phrases))
    { terms := terms.map String.mk,
      excludeTerms := excludeTerms.map String.mk,
      phrases := phrases.map String.mk,
      domain := domainResult.map String.mk,
      folder := folderResult.bind fun f =>
        if f = [] then none else some (String.mk f),
      orGroups := if orGroups0.length > 1 then orGroups0.map (·.map String.mk)
        else [],
      searchText := String.mk searchText }

/-! ## `src/search/miniIndex.ts`

MiniSearch itself is an external library; the index is modelled by the list
of documents fed to it, and the module's cache discipline by an explicit
state machine over the two module-level pointers `cachedIndex` and
`indexBuildPromise`.  A build, once started, is an asynchronous computation
with a fixed outcome (the collection read it performs); `buildSettles`
models its continuation running: on success the closure body assigns
`cachedIndex = mini`, and the `finally` clears `indexBuildPromise`
unconditionally; on failure only the `finally` runs and the promise
rejects. -/

/-- The document shape `toMiniDoc` projects a bookmark to (`?? ''` in the
source is a no-op here because the fields are non-optional strings). -/
structure MiniDoc where
  id : Nat
  title : String
  url : String
  domain : String
  folderPath : String
deriving DecidableEq, Repr

/-- `toMiniDoc(bookmark)`: `null` for id-less bookmarks. -/
def toMiniDoc (b : Bookmark) : Option MiniDoc :=
  match b.id with
  | none => none
  | some i =>
    some { id := i, title := b.title, url := b.url, domain := b.domain,
           folderPath := b.folderPath }

/-- The document list of the index built from a collection snapshot. -/
def buildMiniDocs (bookmarks : List Bookmark) : List MiniDoc :=
  bookmarks.filterMap toMiniDoc

/-- What a build, once started, will produce: the collection read succeeds
with a snapshot, or the read/construction fails. -/
inductive BuildOutcome where
  | ok (bookmarks : List Bookmark)
  | fail
deriving DecidableEq, Repr

/-- The module-level state of `miniIndex.ts`: the cache pointer, the
in-flight-build pointer, and the outcomes of the builds started so far
(a build is identified by its start position). -/
structure MiniIndexState where
  cachedIndex : Option (List MiniDoc)
  indexBuildPromise : Option Nat
  builds : List BuildOutcome
deriving DecidableEq, Repr

/-- The initial module state. -/
def miniIndexInit : MiniIndexState :=
  { cachedIndex := none, indexBuildPromise := none, builds := [] }

/-- What a `getMiniIndex()` call hands its caller. -/
inductive IdxResult where
  | direct (docs : List MiniDoc)
  | awaits (buildId : Nat)
deriving DecidableEq, Repr

/-- `getMiniIndex()`: return the cache if present; else share the in-flight
build; else start a new build (whose eventual outcome is `outcome`, fixed by
the collection state when its read runs). -/
def getMiniIndex (st : MiniIndexState) (outcome : BuildOutcome) :
    MiniIndexState × IdxResult :=
  match st.cachedIndex with
  | some idx => (st, IdxResult.direct idx)
  | none =>
    match st.indexBuildPromise with
    | some b => (st, IdxResult.awaits b)
    | none =>
      let bid := st.builds.length
      ({ st with indexBuildPromise := some bid, builds := st.builds ++ [outcome] },
       IdxResult.awaits bid)

/-- The continuation of build `bid` running to completion: on success the
closure assigns the cache, and the `finally` clears the promise pointer
unconditionally; on failure only the `finally` runs. -/
def buildSettles (st : MiniIndexState) (bid : Nat) : MiniIndexState :=
  match st.builds.get? bid with
  | some (BuildOutcome.ok bookmarks) =>
    { st with cachedIndex := some (buildMiniDocs bookmarks),
              indexBuildPromise := none }
  | some BuildOutcome.fail => { st with indexBuildPromise := none }
  | none => st

/-- What a caller awaiting build `bid` receives once it settles: the built
index, or the propagated rejection. -/
def awaitResult (st : MiniIndexState) (bid : Nat) :
    Option (Except Unit (List MiniDoc)) :=
  match st.builds.get? bid with
  | some (BuildOutcome.ok bookmarks) => some (Except.ok (buildMiniDocs bookmarks))
  | some BuildOutcome.fail => some (Except.error ())
  | none => none

/-- `invalidateMiniIndex()`: clear both pointers synchronously. -/
def invalidateMiniIndex (st : MiniIndexState) : MiniIndexState :=
  { st with cachedIndex := none, indexBuildPromise := none }

/-! ## `src/search/searchService.ts` (MiniSearch-integrated version) -/

/-- `MIN_COMBINED_SCORE = 0.2`. -/
def MIN_COMBINED_SCORE : ℚ := mkRat 2 10

/-- `RELATED_SEMANTIC_FLOOR = 0.15`. -/
def RELATED_SEMANTIC_FLOOR : ℚ := mkRat 15 100

/-- `ALPHA = 0.55`. -/
def ALPHA : ℚ := mkRat 55 100

/-- `PHRASE_BOOST_CAP = 0.2`. -/
def PHRASE_BOOST_CAP : ℚ := mkRat 2 10

/-- `PHRASE_BOOST_PER = 0.07`. -/
def PHRASE_BOOST_PER : ℚ := mkRat 7 100

/-- `JUNK_TITLE_PENALTY = 0.15`. -/
def JUNK_TITLE_PENALTY : ℚ := mkRat 15 100

/-- `RECENCY_BOOST_CAP = 0.05`. -/
def RECENCY_BOOST_CAP : ℚ := mkRat 5 100

/-- `FILTER_ONLY_LIMIT = 50`. -/
def FILTER_ONLY_LIMIT : Nat := 50

/-- `DateRangeFilter = 'any' | '7d' | '30d'`. -/
inductive DateRangeFilter where
  | any
  | d7
  | d30
deriving DecidableEq, Repr

/-- `SearchFilters` (all fields optional). -/
structure SearchFilters where
  folder : Option String := none
  domain : Option String := none
  dateRange : Option DateRangeFilter := none
deriving DecidableEq, Repr

/-- The field label of a keyword reason. -/
inductive ReasonField where
  | title
  | folder
  | site
deriving DecidableEq, Repr

/-- `WhyMatchedReason`. -/
inductive WhyMatchedReason where
  | semantic
  | keyword (field : ReasonField) (terms : List String)
  | phrase (phrase : String)
deriving DecidableEq, Repr

/-- `MatchTier = 'strong' | 'related'`. -/
inductive MatchTier where
  | strong
  | related
deriving DecidableEq, Repr

/-- `SearchResult`. -/
structure SearchResult where
  bookmark : Bookmark
  score : ℚ
  whyMatched : String
  reasons : List WhyMatchedReason
  matchedTerms : Option (List String) := none
  matchTier : Option MatchTier := none
deriving DecidableEq, Repr

/-- `hasAnyFilter(filters)`. -/
def hasAnyFilter (filters : SearchFilters) : Bool :=
  (match filters.folder with | some s => decide (s ≠ "") | none => false) ||
  (match filters.domain with | some s => decide (s ≠ "") | none => false) ||
  (match filters.dateRange with
    | some dr => decide (dr ≠ DateRangeFilter.any)
    | none => false)

/-- `dateCut(filters)` at clock `now` (epoch seconds). -/
def dateCut (now : Int) (filters : SearchFilters) : Option Int :=
  match filters.dateRange with
  | none => none
  | some DateRangeFilter.any => none
  | some DateRangeFilter.d7 => some (now - 7 * 24 * 3600)
  | some DateRangeFilter.d30 => some (now - 30 * 24 * 3600)

/-- The oracle inputs of one `search` invocation: the Dexie tables, the
MiniSearch result list for the parsed search text (§4.2 of the spec fixes
only that the external index query yields `(bookmarkId, relevanceScore)`
pairs), the query embedding, and the clock (epoch seconds). -/
structure SearchEnv where
  bookmarksTable : List Bookmark
  embeddingsTable : List EmbeddingRow
  miniHits : List (Nat × ℚ)
  queryVec : List ℚ
  now : Int
deriving Repr

/-- `loadBookmarksAndEmbeddings(filters)`: AND-filter the bookmarks by
folder equality, domain equality and add-date lower bound, then keep the
embeddings of surviving ids. -/
def loadBookmarksAndEmbeddings (env : SearchEnv) (filters : SearchFilters) :
    List Bookmark × List EmbeddingRow :=
  let b0 := env.bookmarksTable
  let b1 := match filters.folder with
    | some f => if f ≠ "" then b0.filter (fun b => b.folderPath = f) else b0
    | none => b0
  let b2 := match filters.domain with
    | some d => if d ≠ "" then b1.filter (fun b => b.domain = d) else b1
    | none => b1
  let b3 := match dateCut env.now filters with
    | some cut => b2.filter fun b =>
        match b.addDate with
        | some d => decide (cut ≤ d)
        | none => false
    | none => b2
  let ids : List Nat := b3.filterMap fun b => b.id
  let embs := if 0 < ids.length then
      env.embeddingsTable.filter (fun e => ids.contains e.bookmarkId)
    else []
  (b3, embs)

/-- `buildReasons(keywordHit, hasSemantic)`: semantic reason first, then at
most one phrase reason, then at most one keyword reason for the first
matched field in the order title, folderPath, domain, url; fall back to a
semantic reason when empty; cap at 2. -/
def buildReasons (keywordHit : Option KeywordHit) (hasSemantic : Bool) :
    List WhyMatchedReason :=
  let r0 : List WhyMatchedReason :=
    if hasSemantic then [WhyMatchedReason.semantic] else []
  let r1 := r0 ++
    (match keywordHit with
     | some kh =>
       match kh.matchedPhrases with
       | some (p :: _) => [WhyMatchedReason.phrase p.phrase]
       | _ => []
     | none => [])
  let r2 :=
    if r1.length < 2 then
      match keywordHit with
      | some kh =>
        if kh.matchedTerms ≠ [] ∧ kh.matchedIn ≠ [] then
          match [MatchedIn.title, MatchedIn.folderPath, MatchedIn.domain,
              MatchedIn.url].find? (fun f => kh.matchedIn.contains f) with
          | some f =>
            let field := match f with
              | MatchedIn.folderPath => ReasonField.folder
              | MatchedIn.title => ReasonField.title
              | _ => ReasonField.site
            r1 ++ [WhyMatchedReason.keyword field kh.matchedTerms]
          | none => r1
        else r1
      | none => r1
    else r1
  let r3 := if r2 = [] then [WhyMatchedReason.semantic] else r2
  r3.take 2

/-- The reason separator of `formatReasons`, reproducing the source file's
literal bytes (a mojibaked middle dot). -/
def reasonSep : List Char := [' ', Char.ofNat 194, Char.ofNat 183, ' ']

/-- The single-quote character wrapped around matched terms. -/
def squote : List Char := [Char.ofNat 39]

/-- The rendering of one reason inside `formatReasons`. -/
def reasonText : WhyMatchedReason → List Char
  | WhyMatchedReason.semantic => "Relevant to your query".data
  | WhyMatchedReason.phrase p => "Phrase match: ".data ++ p.data
  | WhyMatchedReason.keyword f terms =>
    let fs := match f with
      | ReasonField.title => "title".data
      | ReasonField.folder => "folder".data
      | ReasonField.site => "site".data
    "Matches in ".data ++ fs ++ ": ".data ++
      joinSep ", ".data (terms.map fun t => squote ++ t.data ++ squote)

/-- `formatReasons(reasons)`. -/
def formatReasons (reasons : List WhyMatchedReason) : String :=
  String.mk (joinSep reasonSep (reasons.map reasonText))

/-- `mergeFilters(ui, parsed)`: query operators override UI filters when
present and nonempty. -/
def mergeFilters (ui : SearchFilters) (parsed : ParsedQuery) : SearchFilters :=
  { ui with
    domain := match parsed.domain with
      | some d => if d ≠ "" then some d else ui.domain
      | none => ui.domain,
    folder := match parsed.folder with
      | some f => if f ≠ "" then some f else ui.folder
      | none => ui.folder }

/-- One iteration of the `rawMiniHits` loop of `search`: drop hits outside
the filtered universe, excluded hits, and (with 2+ OR groups) hits matching
no group; otherwise build the `KeywordHit` from the inferred signals. -/
def processMiniHit (bookmarkById : List (Nat × Bookmark)) (parsed : ParsedQuery)
    (hit : Nat × ℚ) : Option KeywordHit :=
  match mapGet bookmarkById hit.1 with
  | none => none
  | some bookmark =>
    if bookmarkMatchesExclude bookmark parsed.excludeTerms then none
    else if parsed.orGroups.length > 1 ∧
        ¬ (parsed.orGroups.any fun g => bookmarkMatchesOrGroup bookmark g) then
      none
    else
      let sig := inferKeywordSignals bookmark parsed
      some { bookmarkId := hit.1, matchedTerms := sig.matchedTerms,
             matchedIn := sig.matchedIn, score := hit.2,
             matchedPhrases := sig.matchedPhrases }

/-- The surviving keyword hits of the `rawMiniHits` loop, in hit order. -/
def keywordHitsOf (bookmarkById : List (Nat × Bookmark)) (parsed : ParsedQuery)
    (raw : List (Nat × ℚ)) : List KeywordHit :=
  raw.filterMap (processMiniHit bookmarkById parsed)

/-- `semanticItems`: the entries of the embedding map, projected to
`{bookmarkId, vector}`. -/
def semanticItemsFrom (embeddingsList : List EmbeddingRow) : List SemItem :=
  (mapEntries (embeddingsList.map fun e => (e.bookmarkId, e))).map fun p =>
    SemItem.mk p.1 p.2.vector

/-- `Math.max(...scores, 1)`. -/
def listMaxQ (l : List ℚ) (init : ℚ) : ℚ := l.foldl max init

/-- One iteration of the keyword-only result loop (the no-embeddings
branch): semantic contribution is zero and no tier is assigned. -/
def scoreKeywordOnlyHit (now : Int) (queryTokens : Nat) (maxKw : ℚ)
    (bookmarkById : List (Nat × Bookmark)) (kh : KeywordHit) :
    Option SearchResult :=
  match mapGet bookmarkById kh.bookmarkId with
  | none => none
  | some b =>
    let semantic : ℚ := 0
    let keyword := min 1 (qdiv kh.score maxKw)
    let phraseCount := (kh.matchedPhrases.getD []).length
    let phraseBoost := min PHRASE_BOOST_CAP (qmul (qofNat phraseCount) PHRASE_BOOST_PER)
    let junkPenalty := if isJunkTitle b.title then JUNK_TITLE_PENALTY else 0
    let recencyBoost := if queryTokens ≤ 2 ∧ isRecent now b then RECENCY_BOOST_CAP else 0
    let raw := qadd (qsub (qadd (qadd (qmul ALPHA semantic)
      (qmul (qsub 1 ALPHA) keyword)) phraseBoost) junkPenalty) recencyBoost
    let finalScore := max 0 (min 1 raw)
    let reasons := buildReasons (some kh) false
    some { bookmark := b, score := finalScore,
           whyMatched := formatReasons reasons, reasons := reasons,
           matchedTerms := if kh.matchedTerms ≠ [] then some kh.matchedTerms else none,
           matchTier := none }

/-- One iteration of the hybrid candidate loop of `search`: blend the
semantic and normalized keyword scores, apply phrase/junk/recency
adjustments, clamp, and tag `strong` iff the final score reaches
`MIN_COMBINED_SCORE`. -/
def scoreHybridCandidate (now : Int) (queryTokens : Nat) (maxKeywordScore : ℚ)
    (semanticByBookmarkId : List (Nat × ℚ))
    (keywordByBookmarkId : List (Nat × KeywordHit)) (b : Bookmark)
    (bookmarkId : Nat) : SearchResult :=
  let semantic := (mapGet semanticByBookmarkId bookmarkId).getD 0
  let kh := mapGet keywordByBookmarkId bookmarkId
  let rawKeyword := (kh.map (·.score)).getD 0
  let keyword := min 1 (qdiv rawKeyword maxKeywordScore)
  let phraseCount := (kh.map fun k => (k.matchedPhrases.getD []).length).getD 0
  let phraseBoost := min PHRASE_BOOST_CAP (qmul (qofNat phraseCount) PHRASE_BOOST_PER)
  let junkPenalty := if isJunkTitle b.title then JUNK_TITLE_PENALTY else 0
  let recencyBoost := if queryTokens ≤ 2 ∧ isRecent now b then RECENCY_BOOST_CAP else 0
  let raw := qadd (qsub (qadd (qadd (qmul ALPHA semantic)
    (qmul (qsub 1 ALPHA) keyword)) phraseBoost) junkPenalty) recencyBoost
  let finalScore := max 0 (min 1 raw)
  let reasons := buildReasons kh (decide (0 < semantic))
  let isStrong := decide (MIN_COMBINED_SCORE ≤ finalScore)
  { bookmark := b, score := finalScore,
    whyMatched := formatReasons reasons, reasons := reasons,
    matchedTerms := match kh with
      | some k => if k.matchedTerms ≠ [] then some k.matchedTerms else none
      | none => none,
    matchTier := if isStrong then some MatchTier.strong else none }

/-- The sort key of the filter-only path: `addDate ?? createdAt ?? 0`
(`createdAt` is never null, so the final `?? 0` is dead). -/
def dateKey (b : Bookmark) : Int := b.addDate.getD b.createdAt

/-- The filter-only path of `search` (empty search text with a query
operator): the filtered bookmarks sorted by date descending, capped at
`FILTER_ONLY_LIMIT`, each with score 1, the "Filtered results" explanation
and no reasons — or empty when no effective filter is set. -/
def filterOnlyBranch (effectiveFilters : SearchFilters)
    (filteredBookmarks : List Bookmark) : List SearchResult :=
  if !hasAnyFilter effectiveFilters then []
  else
    let sorted := stableSortBy (fun a b => decide (dateKey b < dateKey a))
      filteredBookmarks
    (sorted.take FILTER_ONLY_LIMIT).map fun b =>
      { bookmark := b, score := 1, whyMatched := "Filtered results",
        reasons := [], matchedTerms := none, matchTier := none }

/-- The no-embeddings branch of `search`: the first 10 keyword hits scored
with a zero semantic component, in hit order (no re-sort). -/
def keywordOnlyBranch (now : Int) (parsed : ParsedQuery)
    (bookmarkById : List (Nat × Bookmark)) (keywordHits : List KeywordHit) :
    List SearchResult :=
  let maxKw := if keywordHits ≠ [] then
      listMaxQ (keywordHits.map (·.score)) 1
    else 1
  let queryTokens := parsed.terms.length + parsed.phrases.length
  (keywordHits.take 10).filterMap
    (scoreKeywordOnlyHit now queryTokens maxKw bookmarkById)

/-- The hybrid branch of `search`: semantic top-50, candidate union, blended
scoring, strong tier, related backfill, final sort and cap at 10. -/
def hybridBranch (now : Int) (queryVec : List ℚ) (parsed : ParsedQuery)
    (bookmarkById : List (Nat × Bookmark)) (keywordHits : List KeywordHit)
    (semanticItems : List SemItem) : List SearchResult :=
  let semanticHitsRaw := semanticTopK semanticItems queryVec 50
  let keywordByBookmarkId := keywordHits.map fun kh => (kh.bookmarkId, kh)
  let semanticByBookmarkId := semanticHitsRaw.map fun s => (s.bookmarkId, s.score)
  let maxKeywordScore := if keywordHits ≠ [] then
      listMaxQ (keywordHits.map (·.score)) 1
    else 1
  let candidateIds := dedupFirst
    (keywordHits.map (·.bookmarkId) ++ semanticHitsRaw.map (·.bookmarkId))
  let queryTokens := parsed.terms.length + parsed.phrases.length
  let results := candidateIds.filterMap fun bid =>
    (mapGet bookmarkById bid).map fun b =>
      scoreHybridCandidate now queryTokens maxKeywordScore
        semanticByBookmarkId keywordByBookmarkId b bid
  let results := stableSortBy (fun a b => decide (b.score < a.score)) results
  let strongResults := results.filter fun r =>
    r.matchTier = some MatchTier.strong
  let finalResults := strongResults.take 10
  if finalResults.length < 10 ∧ semanticHitsRaw ≠ [] then
    let strongIds := finalResults.filterMap fun r => r.bookmark.id
    let relatedCandidates := (semanticHitsRaw.filter fun s =>
        RELATED_SEMANTIC_FLOOR ≤ s.score ∧ ¬ strongIds.contains s.bookmarkId).take
      (10 - finalResults.length)
    let backfill := relatedCandidates.filterMap fun s =>
      (mapGet bookmarkById s.bookmarkId).map fun b =>
        { bookmark := b, score := s.score,
          whyMatched := "Relevant to your query",
          reasons := [WhyMatchedReason.semantic],
          matchedTerms := none, matchTier := some MatchTier.related }
    (stableSortBy (fun a b => decide (b.score < a.score))
      (finalResults ++ backfill)).take 10
  else finalResults.take 10

/-- `search(query, filters)` (`searchService.ts`). -/
def search (env : SearchEnv) (query : String) (filters : SearchFilters) :
    List SearchResult :=
  let trimmed := trimStr query
  let parsed := parseQuery trimmed
  let effectiveFilters := mergeFilters filters parsed
  let loaded := loadBookmarksAndEmbeddings env effectiveFilters
  let filteredBookmarks := loaded.1
  let embeddingsList := loaded.2
  let queryFilterOnly := parsed.domain.isSome || parsed.folder.isSome
  let searchTextEmpty := decide (trimStr parsed.searchText = "")
  if searchTextEmpty && !queryFilterOnly then []
  else if decide (trimmed = "") || (searchTextEmpty && queryFilterOnly) then
    filterOnlyBranch effectiveFilters filteredBookmarks
  else
    let bookmarkById := filteredBookmarks.filterMap fun b =>
      b.id.map fun i => (i, b)
    let rawMiniHits := if trimStr parsed.searchText ≠ "" then env.miniHits else []
    let keywordHits := keywordHitsOf bookmarkById parsed rawMiniHits
    let semanticItems := semanticItemsFrom embeddingsList
    if semanticItems.length = 0 then
      keywordOnlyBranch env.now parsed bookmarkById keywordHits
    else
      hybridBranch env.now env.queryVec parsed bookmarkById keywordHits
        semanticItems

/-! ## Spec-side definitions (written from the specification's words, for
refinement-style comparisons with the embedded code) -/

/-- The final-score formula as §4.5/§4.6 of the specification words it:
`0.55*semantic + 0.45*normalizedKeyword + phraseBoost - junkPenalty +
recencyBoost`, clamped to `[0,1]`, with `phraseBoost = min(0.2,
0.07 × matched phrases)`, `junkPenalty = 0.15` iff the title is junk, and
`recencyBoost = 0.05` iff the query has at most 2 terms-plus-phrases and the
bookmark is recent. -/
def specCombinedScore (semantic normalizedKeyword : ℚ) (phraseCount : ℕ)
    (junk recencyEligible : Bool) : ℚ :=
  max 0 (min 1 (0.55 * semantic + 0.45 * normalizedKeyword +
    min 0.2 (0.07 * (phraseCount : ℚ)) - (if junk then 0.15 else 0) +
    (if recencyEligible then 0.05 else 0)))

/-- `matchedIn` as the specification words it: each field in which at least
one term whole-word-matched, in the fixed order title, url, folderPath,
domain. -/
def specMatchedIn (b : Bookmark) (terms : List String) : List MatchedIn :=
  [MatchedIn.title, MatchedIn.url, MatchedIn.folderPath, MatchedIn.domain].filter
    fun f => terms.any fun t => termMatchesField t (lowerStr (fieldVal b f))

/-- The filter-only result list as the specification words it: the filtered
bookmarks sorted by `(addDate, falling back to createdAt)` descending,
capped at 50, each with score 1, the literal explanation
"Filtered results" and no reasons. -/
def filterOnlyExpected (env : SearchEnv) (query : String)
    (filters : SearchFilters) : List SearchResult :=
  let filtered := (loadBookmarksAndEmbeddings env
    (mergeFilters filters (parseQuery (trimStr query)))).1
  ((stableSortBy (fun a b => decide (dateKey b < dateKey a)) filtered).take
      50).map fun b =>
    { bookmark := b, score := 1, whyMatched := "Filtered results",
      reasons := [], matchedTerms := none, matchTier := none }

/-! ## Concrete scenarios used by witnesses and counterexamples -/

/-- A bookmark whose title and url contain "pasta". -/
def bmPasta : Bookmark :=
  { id := some 1, url := "https://x.com/pasta", title := "Creamy Garlic Pasta",
    domain := "x.com", folderPath := "Recipes", addDate := some 0,
    createdAt := 0 }

/-- A bookmark whose domain whole-word-matches the exclude term
"bonappetit". -/
def bmBon : Bookmark :=
  { id := some 2, url := "https://bonappetit.com/p", title := "Pasta Ideas",
    domain := "bonappetit.com", folderPath := "Food", addDate := some 0,
    createdAt := 0 }

/-- Environment with two bookmarks, two embeddings (unit-ratio vectors with
perfect-square norms), two lexical hits and an old clock (nothing recent). -/
def envHybrid : SearchEnv :=
  { bookmarksTable := [bmPasta, bmBon],
    embeddingsTable := [⟨1, [4, 3]⟩, ⟨2, [4, -3]⟩],
    miniHits := [(1, 5), (2, 3)],
    queryVec := [4, 3],
    now := 1000000000 }

/-- A junk-titled bookmark (title shorter than 4 characters). -/
def bmJunk : Bookmark :=
  { id := some 3, url := "https://a.com/np", title := "np",
    domain := "a.com", folderPath := "", addDate := some 0, createdAt := 0 }

/-- A normally-titled bookmark. -/
def bmGuide : Bookmark :=
  { id := some 4, url := "https://b.com/pasta", title := "Pasta Guide",
    domain := "b.com", folderPath := "", addDate := some 0, createdAt := 0 }

/-- Environment with no embeddings: `search` takes the keyword-only branch.
The junk-titled bookmark has the higher raw lexical score. -/
def envKwOnly : SearchEnv :=
  { bookmarksTable := [bmJunk, bmGuide], embeddingsTable := [],
    miniHits := [(3, 10), (4, 9)], queryVec := [], now := 1000000000 }

/-- A bookmark in folder "Work" with a distinct add date. -/
def mkWorkBookmark (i : Nat) : Bookmark :=
  { id := some i, url := "https://w.com", title := "Doc",
    domain := "w.com", folderPath := "Work", addDate := some (Int.ofNat i),
    createdAt := 0 }

/-- Environment with eleven bookmarks in folder "Work". -/
def envEleven : SearchEnv :=
  { bookmarksTable := (List.range 11).map mkWorkBookmark,
    embeddingsTable := [], miniHits := [], queryVec := [],
    now := 1000000000 }

/-- A bookmark where the term "alpha" matches only the url and "beta" only
the title. -/
def bmCross : Bookmark :=
  { id := some 5, url := "https://e.com/alpha", title := "beta notes",
    domain := "e.com", folderPath := "", addDate := some 0, createdAt := 0 }

/-- A parsed query with the two terms "alpha", "beta" (the parse of
"alpha beta"). -/
def pqCross : ParsedQuery :=
  { terms := ["alpha", "beta"], excludeTerms := [], phrases := [],
    domain := none, folder := none, orGroups := [], searchText := "alpha beta" }

/-- A bookmark matching only the second OR group of "react OR vue". -/
def bmVue : Bookmark :=
  { id := some 6, url := "https://v.org", title := "Vue Guide",
    domain := "v.org", folderPath := "", addDate := some 0, createdAt := 0 }

/-! ## Bridging lemmas: the executable rational operations agree with the
field operations of `ℚ` -/

theorem qadd_eq (a b : ℚ) : qadd a b = a + b := by
  rw [qadd, Rat.mkRat_eq_div]
  have ha : ((a.den : ℚ)) ≠ 0 := by exact_mod_cast a.den_nz
  have hb : ((b.den : ℚ)) ≠ 0 := by exact_mod_cast b.den_nz
  push_cast
  conv_rhs => rw [← Rat.num_div_den a, ← Rat.num_div_den b]
  field_simp
  try ring

theorem qsub_eq (a b : ℚ) : qsub a b = a - b := by
  rw [qsub, Rat.mkRat_eq_div]
  have ha : ((a.den : ℚ)) ≠ 0 := by exact_mod_cast a.den_nz
  have hb : ((b.den : ℚ)) ≠ 0 := by exact_mod_cast b.den_nz
  push_cast
  conv_rhs => rw [← Rat.num_div_den a, ← Rat.num_div_den b]
  field_simp
  try ring

theorem qmul_eq (a b : ℚ) : qmul a b = a * b := by
  rw [qmul, Rat.mkRat_eq_div]
  have ha : ((a.den : ℚ)) ≠ 0 := by exact_mod_cast a.den_nz
  have hb : ((b.den : ℚ)) ≠ 0 := by exact_mod_cast b.den_nz
  push_cast
  conv_rhs => rw [← Rat.num_div_den a, ← Rat.num_div_den b]
  field_simp
  try ring

theorem qdiv_eq (a b : ℚ) : qdiv a b = a / b := by
  rcases eq_or_ne b 0 with rfl | hb0
  · simp [qdiv, Rat.mkRat_eq_div]
  · have hbn : b.num ≠ 0 := Rat.num_ne_zero.mpr hb0
    have ha : ((a.den : ℚ)) ≠ 0 := by exact_mod_cast a.den_nz
    have hb : ((b.den : ℚ)) ≠ 0 := by exact_mod_cast b.den_nz
    have hbnq : ((b.num : ℚ)) ≠ 0 := by exact_mod_cast hbn
    rw [qdiv]
    rcases le_or_lt 0 b.num with h | h
    · rw [if_pos h, Rat.mkRat_eq_div]
      push_cast [Int.cast_natAbs, abs_of_nonneg (show ((0:ℚ)) ≤ (b.num : ℚ) by exact_mod_cast h)]
      conv_rhs => rw [← Rat.num_div_den a, ← Rat.num_div_den b]
      field_simp
      try ring
    · rw [if_neg (not_le.mpr h), Rat.mkRat_eq_div]
      push_cast [Int.cast_natAbs, abs_of_neg (show ((b.num : ℚ)) < 0 by exact_mod_cast h)]
      conv_rhs => rw [← Rat.num_div_den a, ← Rat.num_div_den b]
      field_simp
      try ring

theorem qofNat_eq (n : ℕ) : qofNat n = (n : ℚ) := by
  rw [qofNat, Rat.mkRat_eq_div]
  push_cast
  simp

/-! ## Lemmas about the stable sort -/

theorem mem_insertDesc {α : Type} (gt : α → α → Bool) (x z : α) (l : List α) :
    z ∈ insertDesc gt x l ↔ z = x ∨ z ∈ l := by
  induction l with
  | nil => simp [insertDesc]
  | cons y ys ih =>
    simp only [insertDesc]
    split
    · simp only [List.mem_cons, ih]
      try tauto
    · simp only [List.mem_cons]
      try tauto

theorem pairwise_insertDesc {α : Type} (gt : α → α → Bool)
    (hasym : ∀ a b, gt a b = true → gt b a = false)
    (hneg : ∀ a b c, gt b a = false → gt c b = false → gt c a = false)
    (x : α) (l : List α) (hl : l.Pairwise fun a b => gt b a = false) :
    (insertDesc gt x l).Pairwise fun a b => gt b a = false := by
  induction l with
  | nil => simp [insertDesc]
  | cons y ys ih =>
    rcases List.pairwise_cons.mp hl with ⟨hy, hys⟩
    simp only [insertDesc]
    split
    case isTrue h =>
      refine List.pairwise_cons.mpr ⟨?_, ih hys⟩
      intro z hz
      rcases (mem_insertDesc gt x z ys).mp hz with rfl | hz'
      · exact hasym y z h
      · exact hy z hz'
    case isFalse h =>
      refine List.pairwise_cons.mpr ⟨?_, hl⟩
      intro z hz
      rcases List.mem_cons.mp hz with rfl | hz'
      · simpa using h
      · exact hneg x y z (by simpa using h) (hy z hz')

theorem pairwise_stableSortBy {α : Type} (gt : α → α → Bool)
    (hasym : ∀ a b, gt a b = true → gt b a = false)
    (hneg : ∀ a b c, gt b a = false → gt c b = false → gt c a = false)
    (l : List α) :
    (stableSortBy gt l).Pairwise fun a b => gt b a = false := by
  induction l with
  | nil => simp [stableSortBy]
  | cons x xs ih => exact pairwise_insertDesc gt hasym hneg x _ ih

/-- The score-descending sort used by `search` yields a list whose scores
are non-increasing. -/
theorem sortByScoreDesc_sorted (l : List SearchResult) :
    (stableSortBy (fun a b => decide (b.score < a.score)) l).Pairwise
      fun r1 r2 => r2.score ≤ r1.score := by
  have h := pairwise_stableSortBy
    (fun a b : SearchResult => decide (b.score < a.score))
    (fun a b hab => by
      simp only [decide_eq_true_eq] at hab
      simpa using le_of_lt hab)
    (fun a b c h1 h2 => by
      simp only [decide_eq_false_iff_not, not_lt] at h1 h2 ⊢
      exact le_trans h2 h1)
    l
  exact h.imp fun {a b} hab => by
    simp only [decide_eq_false_iff_not, not_lt] at hab
    exact hab

/-- A relation holding of every pair holds pairwise on every list. -/
theorem pairwise_trivial {α : Type} {R : α → α → Prop} (h : ∀ a b, R a b) :
    ∀ l : List α, l.Pairwise R := by
  intro l
  induction l with
  | nil => exact List.Pairwise.nil
  | cons x xs ih => exact List.pairwise_cons.mpr ⟨fun z _ => h x z, ih⟩

/-! ## The scoring constants in decimal form -/

theorem ALPHA_eq : ALPHA = 0.55 := by
  rw [ALPHA, Rat.mkRat_eq_div]
  norm_num

theorem MIN_COMBINED_SCORE_eq : MIN_COMBINED_SCORE = 0.2 := by
  rw [MIN_COMBINED_SCORE, Rat.mkRat_eq_div]
  norm_num

theorem PHRASE_BOOST_CAP_eq : PHRASE_BOOST_CAP = 0.2 := by
  rw [PHRASE_BOOST_CAP, Rat.mkRat_eq_div]
  norm_num

theorem PHRASE_BOOST_PER_eq : PHRASE_BOOST_PER = 0.07 := by
  rw [PHRASE_BOOST_PER, Rat.mkRat_eq_div]
  norm_num

theorem JUNK_TITLE_PENALTY_eq : JUNK_TITLE_PENALTY = 0.15 := by
  rw [JUNK_TITLE_PENALTY, Rat.mkRat_eq_div]
  norm_num

theorem RECENCY_BOOST_CAP_eq : RECENCY_BOOST_CAP = 0.05 := by
  rw [RECENCY_BOOST_CAP, Rat.mkRat_eq_div]
  norm_num

theorem RELATED_SEMANTIC_FLOOR_eq : RELATED_SEMANTIC_FLOOR = 0.15 := by
  rw [RELATED_SEMANTIC_FLOOR, Rat.mkRat_eq_div]
  norm_num

/-- The tier tag is `strong` exactly when the threshold is reached. -/
theorem tier_strong_iff (c s : ℚ) :
    ((if decide (c ≤ s) then some MatchTier.strong else none) =
      some MatchTier.strong ↔ c ≤ s) := by
  by_cases h : c ≤ s <;> simp [h]

/-- The tier tag is absent exactly when the threshold is missed. -/
theorem tier_none_iff (c s : ℚ) :
    ((if decide (c ≤ s) then some MatchTier.strong else none) = none ↔
      ¬ c ≤ s) := by
  by_cases h : c ≤ s <;> simp [h]

/-- C4: in the hybrid branch, every candidate's final score equals
`0.55*semantic + 0.45*normalizedKeyword + phraseBoost - junkPenalty +
recencyBoost` clamped to `[0,1]` — with `phraseBoost = min(0.2, 0.07 ×
matched phrases)`, `junkPenalty = 0.15` iff the title is junk, and
`recencyBoost = 0.05` iff the query has at most 2 terms-plus-phrases and
the bookmark is recent — and the candidate is tagged `strong` iff that
final score is at least `0.2`, carrying no tier tag otherwise.
(`scoreHybridCandidate` is the body of the candidate loop of `search`.) -/
theorem hybrid_candidate_score_spec (now : Int) (queryTokens : Nat)
    (maxKeywordScore : ℚ) (semanticByBookmarkId : List (Nat × ℚ))
    (keywordByBookmarkId : List (Nat × KeywordHit)) (b : Bookmark)
    (bookmarkId : Nat) :
    (scoreHybridCandidate now queryTokens maxKeywordScore semanticByBookmarkId
        keywordByBookmarkId b bookmarkId).score =
      specCombinedScore ((mapGet semanticByBookmarkId bookmarkId).getD 0)
        (min 1 ((((mapGet keywordByBookmarkId bookmarkId).map (·.score)).getD 0) /
          maxKeywordScore))
        (((mapGet keywordByBookmarkId bookmarkId).map fun k =>
          (k.matchedPhrases.getD []).length).getD 0)
        (isJunkTitle b.title)
        (decide (queryTokens ≤ 2) && isRecent now b) ∧
    ((scoreHybridCandidate now queryTokens maxKeywordScore semanticByBookmarkId
        keywordByBookmarkId b bookmarkId).matchTier = some MatchTier.strong ↔
      (0.2 : ℚ) ≤ (scoreHybridCandidate now queryTokens maxKeywordScore
        semanticByBookmarkId keywordByBookmarkId b bookmarkId).score) ∧
    ((scoreHybridCandidate now queryTokens maxKeywordScore semanticByBookmarkId
        keywordByBookmarkId b bookmarkId).matchTier = none ↔
      ¬ ((0.2 : ℚ) ≤ (scoreHybridCandidate now queryTokens maxKeywordScore
        semanticByBookmarkId keywordByBookmarkId b bookmarkId).score)) := by
  refine ⟨?_, ?_, ?_⟩
  · simp only [scoreHybridCandidate, specCombinedScore, qadd_eq, qsub_eq,
      qmul_eq, qdiv_eq, qofNat_eq, ALPHA_eq, PHRASE_BOOST_CAP_eq,
      PHRASE_BOOST_PER_eq, JUNK_TITLE_PENALTY_eq, RECENCY_BOOST_CAP_eq,
      Bool.and_eq_true, decide_eq_true_eq]
    norm_num
    try ring_nf
  · simp only [scoreHybridCandidate, MIN_COMBINED_SCORE_eq]
    exact tier_strong_iff _ _
  · simp only [scoreHybridCandidate, MIN_COMBINED_SCORE_eq]
    exact tier_none_iff _ _

/-- `(l ++ [a]).get? l.length = some a`. -/
theorem get?_concat_len {α : Type} (l : List α) (a : α) :
    (l ++ [a]).get? l.length = some a := by
  induction l with
  | nil => rfl
  | cons x xs ih => simpa using ih

/-- C3 (refuted — code bug): `invalidateMiniIndex` clears both pointers, but
the still-running orphaned build's closure later assigns `cachedIndex`
unconditionally, so its stale result *is* cached and *is* returned by a
`getMiniIndex` call made after the invalidation, without any fresh build.
Trace: a build starts against collection `S1`; `invalidate` runs; the
orphaned build settles; the next `getMiniIndex` — with the collection now
`S2` — returns the `S1` index directly and starts no build. -/
theorem invalidated_inflight_build_still_cached :
    (getMiniIndex
        (buildSettles
          (invalidateMiniIndex
            (getMiniIndex miniIndexInit (BuildOutcome.ok [bmPasta])).1)
          0)
        (BuildOutcome.ok [bmPasta, bmBon])).2 =
      IdxResult.direct (buildMiniDocs [bmPasta]) ∧
    buildMiniDocs [bmPasta] ≠ buildMiniDocs [bmPasta, bmBon] ∧
    (getMiniIndex
        (buildSettles
          (invalidateMiniIndex
            (getMiniIndex miniIndexInit (BuildOutcome.ok [bmPasta])).1)
          0)
        (BuildOutcome.ok [bmPasta, bmBon])).1.builds.length = 1 := by
  refine ⟨rfl, by decide, rfl⟩

/-- C9: if the collection read (or index construction) of a build fails,
nothing is cached, the rejection propagates to the caller awaiting that one
build, and a subsequent `getMiniIndex` call starts a fresh build against the
then-current collection. -/
theorem build_failure_not_cached (st : MiniIndexState) (o : BuildOutcome)
    (h1 : st.cachedIndex = none) (h2 : st.indexBuildPromise = none) :
    (getMiniIndex st BuildOutcome.fail).2 =
      IdxResult.awaits st.builds.length ∧
    (buildSettles (getMiniIndex st BuildOutcome.fail).1
      st.builds.length).cachedIndex = none ∧
    awaitResult (buildSettles (getMiniIndex st BuildOutcome.fail).1
      st.builds.length) st.builds.length = some (Except.error ()) ∧
    (getMiniIndex (buildSettles (getMiniIndex st BuildOutcome.fail).1
      st.builds.length) o).2 = IdxResult.awaits (st.builds.length + 1) ∧
    (getMiniIndex (buildSettles (getMiniIndex st BuildOutcome.fail).1
        st.builds.length) o).1.builds.get? (st.builds.length + 1) = some o := by
  have hb : (st.builds ++ [BuildOutcome.fail]).get? st.builds.length =
      some BuildOutcome.fail := get?_concat_len _ _
  refine ⟨?_, ?_, ?_, ?_, ?_⟩
  · simp [getMiniIndex, h1, h2]
  · simp [getMiniIndex, buildSettles, h1, h2, hb]
  · simp [getMiniIndex, buildSettles, awaitResult, h1, h2, hb]
  · simp [getMiniIndex, buildSettles, h1, h2, hb]
  · have hstep : (getMiniIndex (buildSettles (getMiniIndex st
        BuildOutcome.fail).1 st.builds.length) o).1.builds =
        (st.builds ++ [BuildOutcome.fail]) ++ [o] := by
      simp [getMiniIndex, buildSettles, h1, h2, hb]
    rw [hstep]
    have h3 := get?_concat_len (st.builds ++ [BuildOutcome.fail]) o
    simpa using h3

/-! ## Lemmas about the lexical-hit filtering -/

/-- `bookmarkMatchesExclude` unfolded to an existential over the terms. -/
theorem bookmarkMatchesExclude_iff (b : Bookmark) (E : List String) :
    bookmarkMatchesExclude b E = true ↔
      ∃ t ∈ E, (termMatchesField t (lowerStr b.title) = true ∨
        termMatchesField t (lowerStr b.url) = true ∨
        termMatchesField t (lowerStr b.folderPath) = true ∨
        termMatchesField t (lowerStr b.domain) = true) := by
  by_cases hE : E = [] <;>
    simp [bookmarkMatchesExclude, hE, List.any_eq_true, Bool.or_eq_true] <;>
    exact exists_congr fun t => and_congr_right fun _ => by tauto

/-- Anatomy of a surviving mini hit: the bookmark is in the filtered
universe, not excluded, passes the OR-group check when there are 2+ groups,
and the produced hit carries the hit's id. -/
theorem processMiniHit_some {m : List (Nat × Bookmark)} {parsed : ParsedQuery}
    {hit : Nat × ℚ} {kh : KeywordHit}
    (hproc : processMiniHit m parsed hit = some kh) :
    ∃ b, mapGet m hit.1 = some b ∧
      bookmarkMatchesExclude b parsed.excludeTerms = false ∧
      (1 < parsed.orGroups.length →
        ∃ g ∈ parsed.orGroups, bookmarkMatchesOrGroup b g = true) ∧
      kh.bookmarkId = hit.1 := by
  unfold processMiniHit at hproc
  cases hmap : mapGet m hit.1 with
  | none => simp [hmap] at hproc
  | some b =>
    simp only [hmap] at hproc
    by_cases h1 : bookmarkMatchesExclude b parsed.excludeTerms = true
    · simp [h1] at hproc
    · rw [Bool.not_eq_true] at h1
      simp only [h1, Bool.false_eq_true, if_false] at hproc
      split at hproc
      next hcond => simp at hproc
      next hcond =>
        refine ⟨b, rfl, h1, ?_, ?_⟩
        · intro hlen
          rcases not_and_or.mp hcond with hna | hna
          · omega
          · rw [not_not] at hna
            simpa [List.any_eq_true] using hna
        · injection hproc with h
          rw [← h]

/-- Constructing a surviving mini hit. -/
theorem processMiniHit_mk {m : List (Nat × Bookmark)} {parsed : ParsedQuery}
    {hit : Nat × ℚ} {b : Bookmark} (hb : mapGet m hit.1 = some b)
    (he : bookmarkMatchesExclude b parsed.excludeTerms = false)
    (ho : 1 < parsed.orGroups.length →
      ∃ g ∈ parsed.orGroups, bookmarkMatchesOrGroup b g = true) :
    processMiniHit m parsed hit = some
      { bookmarkId := hit.1,
        matchedTerms := (inferKeywordSignals b parsed).matchedTerms,
        matchedIn := (inferKeywordSignals b parsed).matchedIn,
        score := hit.2,
        matchedPhrases := (inferKeywordSignals b parsed).matchedPhrases } := by
  have hcond : ¬ (parsed.orGroups.length > 1 ∧
      ¬ (parsed.orGroups.any fun g => bookmarkMatchesOrGroup b g) = true) := by
    rintro ⟨hlen2, hany⟩
    rcases ho hlen2 with ⟨g, hg, hm⟩
    exact hany (List.any_eq_true.mpr ⟨g, hg, hm⟩)
  unfold processMiniHit
  simp only [hb, he, Bool.false_eq_true, if_false, if_neg hcond]

/-- C5: if any exclude term of the parsed query whole-word-matches
(case-insensitively) any of a bookmark's four fields, that bookmark does not
appear among the lexical-derived hits (`keywordHitsOf`, the surviving
MiniSearch hits of `search`) for that query. -/
theorem exclude_correctness (bookmarkById : List (Nat × Bookmark))
    (parsed : ParsedQuery) (raw : List (Nat × ℚ)) (b : Bookmark)
    (h : ∃ t ∈ parsed.excludeTerms,
      (termMatchesField t (lowerStr b.title) = true ∨
       termMatchesField t (lowerStr b.url) = true ∨
       termMatchesField t (lowerStr b.folderPath) = true ∨
       termMatchesField t (lowerStr b.domain) = true)) :
    ∀ kh ∈ keywordHitsOf bookmarkById parsed raw,
      mapGet bookmarkById kh.bookmarkId ≠ some b := by
  have hexcl : bookmarkMatchesExclude b parsed.excludeTerms = true :=
    (bookmarkMatchesExclude_iff b parsed.excludeTerms).mpr h
  intro kh hmem hcontra
  rcases List.mem_filterMap.mp hmem with ⟨hit, _, hproc⟩
  rcases processMiniHit_some hproc with ⟨b', hmap, hne, _, hid⟩
  rw [hid, hmap] at hcontra
  injection hcontra with hbb
  rw [hbb, hexcl] at hne
  exact Bool.true_eq_false.mp hne

/-- C6: `bookmarkMatchesOrGroup` is true only if every term of the group
whole-word-matches at least one of the four fields; and when the parsed
query has more than one OR group, a lexical hit (in the filtered universe
and not excluded) survives iff at least one group matches — AND within a
group, OR across groups. -/
theorem or_group_correctness :
    (∀ (b : Bookmark) (g : List String), bookmarkMatchesOrGroup b g = true →
      ∀ t ∈ g, (termMatchesField t (lowerStr b.title) = true ∨
        termMatchesField t (lowerStr b.url) = true ∨
        termMatchesField t (lowerStr b.folderPath) = true ∨
        termMatchesField t (lowerStr b.domain) = true)) ∧
    (∀ (bookmarkById : List (Nat × Bookmark)) (parsed : ParsedQuery)
        (raw : List (Nat × ℚ)) (hit : Nat × ℚ) (b : Bookmark),
      hit ∈ raw → mapGet bookmarkById hit.1 = some b →
      bookmarkMatchesExclude b parsed.excludeTerms = false →
      1 < parsed.orGroups.length →
      ((∃ kh ∈ keywordHitsOf bookmarkById parsed raw, kh.bookmarkId = hit.1) ↔
        ∃ g ∈ parsed.orGroups, bookmarkMatchesOrGroup b g = true)) := by
  constructor
  · intro b g hg t ht
    by_cases hgnil : g = []
    · subst hgnil; cases ht
    · rw [bookmarkMatchesOrGroup, if_neg hgnil] at hg
      have h4 := List.all_eq_true.mp hg t ht
      simp only [Bool.or_eq_true] at h4
      tauto
  · intro bookmarkById parsed raw hit b hhit hmap hexcl hlen
    constructor
    · rintro ⟨kh, hmem, hid⟩
      rcases List.mem_filterMap.mp hmem with ⟨hit', _, hproc⟩
      rcases processMiniHit_some hproc with ⟨b', hmap', hne', hor', hid'⟩
      have heq : hit'.1 = hit.1 := by rw [← hid', hid]
      rw [heq, hmap] at hmap'
      injection hmap' with hbb
      rw [hbb]
      exact hor' hlen
    · rintro ⟨g, hg, hm⟩
      refine ⟨_, List.mem_filterMap.mpr ⟨hit, hhit,
        processMiniHit_mk hmap hexcl (fun _ => ⟨g, hg, hm⟩)⟩, rfl⟩

/-! ## Lemmas about match-signal inference -/

/-- The field-scan fold of `inferKeywordSignals` keeps `matchedIn`
duplicate-free. -/
theorem foldl_inferStep_nodup (term : String) (fs : List (MatchedIn × String)) :
    ∀ acc : List String × List MatchedIn, acc.2.Nodup →
      ((fs.foldl (inferStep term) acc).2).Nodup := by
  induction fs with
  | nil => intro acc h; exact h
  | cons fld fs ih =>
    intro acc h
    apply ih
    unfold inferStep
    split
    · dsimp only
      split
      · exact h
      next hc =>
        rw [List.elem_iff] at hc
        simp [List.nodup_append, h, List.disjoint_singleton, hc]
    · exact h

/-- Membership in `matchedIn` after the field-scan fold: an old member, or a
field of the scanned list that the term matches. -/
theorem foldl_inferStep_mem (term : String) (fs : List (MatchedIn × String)) :
    ∀ (acc : List String × List MatchedIn) (f : MatchedIn),
      (f ∈ (fs.foldl (inferStep term) acc).2 ↔
        f ∈ acc.2 ∨ ∃ fld ∈ fs, fld.1 = f ∧ termMatchesField term fld.2 = true) := by
  induction fs with
  | nil => intro acc f; simp
  | cons fld fs ih =>
    intro acc f
    rw [List.foldl_cons, ih]
    have hsplit : (∃ fld' ∈ fld :: fs, fld'.1 = f ∧
        termMatchesField term fld'.2 = true) ↔
        ((fld.1 = f ∧ termMatchesField term fld.2 = true) ∨
          ∃ fld' ∈ fs, fld'.1 = f ∧ termMatchesField term fld'.2 = true) := by
      constructor
      · rintro ⟨fld', hmem, h1, h2⟩
        rcases List.mem_cons.mp hmem with rfl | hmem'
        · exact Or.inl ⟨h1, h2⟩
        · exact Or.inr ⟨fld', hmem', h1, h2⟩
      · rintro (⟨h1, h2⟩ | ⟨fld', hmem', h1, h2⟩)
        · exact ⟨fld, List.mem_cons_self _ _, h1, h2⟩
        · exact ⟨fld', List.mem_cons.mpr (Or.inr hmem'), h1, h2⟩
    rw [hsplit]
    unfold inferStep
    by_cases hm : termMatchesField term fld.2 = true
    · rw [if_pos hm]
      dsimp only
      by_cases hc : acc.2.contains fld.1 = true
      · rw [if_pos hc]
        rw [List.elem_iff] at hc
        constructor
        · rintro (hf | hrest)
          · exact Or.inl hf
          · exact Or.inr (Or.inr hrest)
        · rintro (hf | ⟨heq, _⟩ | hrest)
          · exact Or.inl hf
          · exact Or.inl (heq ▸ hc)
          · exact Or.inr hrest
      · rw [if_neg hc]
        constructor
        · rintro (hf | hrest)
          · rcases List.mem_append.mp hf with hf' | hf'
            · exact Or.inl hf'
            · exact Or.inr (Or.inl ⟨(List.mem_singleton.mp hf').symm, hm⟩)
          · exact Or.inr (Or.inr hrest)
        · rintro (hf | ⟨heq, _⟩ | hrest)
          · exact Or.inl (List.mem_append.mpr (Or.inl hf))
          · exact Or.inl (List.mem_append.mpr (Or.inr (by simp [heq])))
          · exact Or.inr hrest
    · rw [if_neg hm]
      constructor
      · rintro (hf | hrest)
        · exact Or.inl hf
        · exact Or.inr (Or.inr hrest)
      · rintro (hf | ⟨_, hmm⟩ | hrest)
        · exact Or.inl hf
        · exact absurd hmm hm
        · exact Or.inr hrest

/-- The term fold of `inferKeywordSignals` keeps `matchedIn`
duplicate-free. -/
theorem foldl_terms_nodup (b : Bookmark) :
    ∀ (terms : List String) (acc : List String × List MatchedIn),
      acc.2.Nodup →
      ((terms.foldl (fun acc term => (fieldsOf b).foldl (inferStep term) acc)
        acc).2).Nodup := by
  intro terms
  induction terms with
  | nil => intro acc h; exact h
  | cons t ts ih =>
    intro acc h
    exact ih _ (foldl_inferStep_nodup t (fieldsOf b) acc h)

/-- Membership in `matchedIn` after the term fold. -/
theorem foldl_terms_mem (b : Bookmark) :
    ∀ (terms : List String) (acc : List String × List MatchedIn) (f : MatchedIn),
      (f ∈ (terms.foldl (fun acc term => (fieldsOf b).foldl (inferStep term) acc)
          acc).2 ↔
        f ∈ acc.2 ∨ ∃ t ∈ terms, ∃ fld ∈ fieldsOf b, fld.1 = f ∧
          termMatchesField t fld.2 = true) := by
  intro terms
  induction terms with
  | nil => intro acc f; simp
  | cons t ts ih =>
    intro acc f
    rw [List.foldl_cons, ih, foldl_inferStep_mem]
    constructor
    · rintro ((hf | ⟨fld, hfld, h1, h2⟩) | ⟨t', ht', hrest⟩)
      · exact Or.inl hf
      · exact Or.inr ⟨t, List.mem_cons_self _ _, fld, hfld, h1, h2⟩
      · exact Or.inr ⟨t', List.mem_cons.mpr (Or.inr ht'), hrest⟩
    · rintro (hf | ⟨t', ht', hrest⟩)
      · exact Or.inl (Or.inl hf)
      · rcases List.mem_cons.mp ht' with rfl | ht''
        · exact Or.inl (Or.inr hrest)
        · exact Or.inr ⟨t', ht'', hrest⟩

/-- C8 (amended): `matchedIn` contains exactly the fields in which at least
one query term whole-word-matched, without duplicates; its order is the
order of first match in the scan (terms outer, fields title, url,
folderPath, domain inner), not always the fixed field order. -/
theorem matchedIn_membership_nodup (b : Bookmark) (parsed : ParsedQuery) :
    (inferKeywordSignals b parsed).matchedIn.Nodup ∧
    ∀ f : MatchedIn, (f ∈ (inferKeywordSignals b parsed).matchedIn ↔
      ∃ t ∈ parsed.terms, termMatchesField t (lowerStr (fieldVal b f)) = true) := by
  have hfld : ∀ (t : String) (f : MatchedIn),
      ((∃ fld ∈ fieldsOf b, fld.1 = f ∧ termMatchesField t fld.2 = true) ↔
        termMatchesField t (lowerStr (fieldVal b f)) = true) := by
    intro t f
    cases f <;> simp [fieldsOf, fieldVal]
  constructor
  · exact foldl_terms_nodup b parsed.terms ([], []) List.nodup_nil
  · intro f
    show f ∈ (inferTerms b parsed.terms).2 ↔ _
    unfold inferTerms
    rw [foldl_terms_mem]
    simp only [List.not_mem_nil, false_or]
    exact exists_congr fun t => and_congr_right fun _ => hfld t f

/-- C8 (counterexample): for a bookmark where "alpha" matches only the url
and "beta" only the title, `matchedIn` comes out as `[url, title]` — the
order of first match — while the fixed order of the specification would be
`[title, url]`. -/
theorem matchedIn_fixed_order_fails :
    (inferKeywordSignals bmCross pqCross).matchedIn =
      [MatchedIn.url, MatchedIn.title] ∧
    specMatchedIn bmCross pqCross.terms =
      [MatchedIn.title, MatchedIn.url] ∧
    (inferKeywordSignals bmCross pqCross).matchedIn ≠
      specMatchedIn bmCross pqCross.terms := by
  refine ⟨by decide, by decide, by decide⟩

/-! ## Lemmas about the three result branches -/

theorem length_filterOnlyBranch (ef : SearchFilters) (fb : List Bookmark) :
    (filterOnlyBranch ef fb).length ≤ 50 := by
  unfold filterOnlyBranch
  split
  · simp
  · simp only [List.length_map, List.length_take, FILTER_ONLY_LIMIT]
    omega

theorem length_keywordOnlyBranch (now : Int) (parsed : ParsedQuery)
    (m : List (Nat × Bookmark)) (khs : List KeywordHit) :
    (keywordOnlyBranch now parsed m khs).length ≤ 10 := by
  unfold keywordOnlyBranch
  refine le_trans (List.length_filterMap_le _ _) ?_
  simp only [List.length_take]
  omega

/-- Both arms of an `if` bounded in length bound the `if`. -/
theorem ite_length_le {α : Type} {c : Prop} [Decidable c] {n : Nat}
    (A B : List α) (hA : A.length ≤ n) (hB : B.length ≤ n) :
    (if c then A else B).length ≤ n := by
  by_cases h : c
  · rw [if_pos h]; exact hA
  · rw [if_neg h]; exact hB

/-- Both arms of an `if` pairwise-sorted sort the `if`. -/
theorem ite_pairwise {α : Type} {R : α → α → Prop} {c : Prop} [Decidable c]
    (A B : List α) (hA : A.Pairwise R) (hB : B.Pairwise R) :
    (if c then A else B).Pairwise R := by
  by_cases h : c
  · rw [if_pos h]; exact hA
  · rw [if_neg h]; exact hB

theorem length_hybridBranch (now : Int) (qv : List ℚ) (parsed : ParsedQuery)
    (m : List (Nat × Bookmark)) (khs : List KeywordHit)
    (si : List SemItem) :
    (hybridBranch now qv parsed m khs si).length ≤ 10 := by
  simp only [hybridBranch]
  exact ite_length_le _ _
    (by simp only [List.length_take]; omega)
    (by simp only [List.length_take]; omega)

theorem sorted_filterOnlyBranch (ef : SearchFilters) (fb : List Bookmark) :
    (filterOnlyBranch ef fb).Pairwise fun r1 r2 => r2.score ≤ r1.score := by
  unfold filterOnlyBranch
  split
  · simp
  · rw [List.pairwise_map]
    exact pairwise_trivial (fun a b => le_refl 1) _

theorem sorted_hybridBranch (now : Int) (qv : List ℚ) (parsed : ParsedQuery)
    (m : List (Nat × Bookmark)) (khs : List KeywordHit)
    (si : List SemItem) :
    (hybridBranch now qv parsed m khs si).Pairwise
      fun r1 r2 => r2.score ≤ r1.score := by
  simp only [hybridBranch]
  exact ite_pairwise _ _
    (List.Pairwise.sublist (List.take_sublist _ _) (sortByScoreDesc_sorted _))
    (List.Pairwise.sublist (List.take_sublist _ _)
      (List.Pairwise.sublist (List.take_sublist _ _)
        (List.Pairwise.filter _ (sortByScoreDesc_sorted _))))

/-! ## Lemmas about the parser's operator values -/

/-- A matched `site:`/`domain:`/`folder:` capture is never empty. -/
theorem matchKeyCapAt_cap_ne_nil {l : List Char} {i : Nat} {key : List Char}
    {m : List Char × List Char} (h : matchKeyCapAt l i key = some m) :
    m.2 ≠ [] := by
  unfold matchKeyCapAt at h
  split at h
  · dsimp only at h
    split at h
    · split at h
      next hcap => exact absurd h (by simp)
      next hcap =>
        injection h with h'
        rw [← h']
        exact hcap
    · exact absurd h (by simp)
  · exact absurd h (by simp)

/-- A matched `site:`/`domain:` capture is never empty. -/
theorem matchSiteAt_cap_ne_nil {l : List Char} {i : Nat}
    {m : List Char × List Char} (h : matchSiteAt l i = some m) : m.2 ≠ [] := by
  unfold matchSiteAt at h
  cases h1 : matchKeyCapAt l i "site:".data with
  | some v =>
    rw [h1, Option.some_orElse] at h
    exact matchKeyCapAt_cap_ne_nil (h1.trans h)
  | none =>
    rw [h1, Option.none_orElse] at h
    exact matchKeyCapAt_cap_ne_nil h

/-- `head?` yields a member. -/
theorem head?_mem {α : Type} {l : List α} {a : α} (h : l.head? = some a) :
    a ∈ l := by
  cases l with
  | nil => cases h
  | cons x xs =>
    injection h with h'
    rw [← h']
    exact List.mem_cons_self _ _

/-- The empty query parses to the all-empty `ParsedQuery`. -/
theorem parseQuery_empty : parseQuery "" =
    { terms := [], excludeTerms := [], phrases := [], domain := none,
      folder := none, orGroups := [], searchText := "" } := rfl

/-- A parsed `site:`/`domain:` operator value is never the empty string. -/
theorem parseQuery_domain_ne_empty (raw : String) :
    ∀ d, (parseQuery raw).domain = some d → d ≠ "" := by
  intro d hd
  unfold parseQuery at hd
  dsimp only at hd
  split at hd
  · simp at hd
  · dsimp only at hd
    rcases Option.map_eq_some'.mp hd with ⟨cap, hcap, hd'⟩
    rcases Option.map_eq_some'.mp hcap with ⟨m, hm, hcap'⟩
    have hne : m.2 ≠ [] := by
      rcases List.mem_filterMap.mp (head?_mem hm) with ⟨i, _, hmatch⟩
      exact matchSiteAt_cap_ne_nil hmatch
    intro h0
    rw [← hd'] at h0
    rw [← hcap'] at h0
    have : m.2 = [] := congrArg String.data h0
    exact hne this

/-- A parsed `folder:` operator value is never the empty string. -/
theorem parseQuery_folder_ne_empty (raw : String) :
    ∀ f, (parseQuery raw).folder = some f → f ≠ "" := by
  intro f hf
  unfold parseQuery at hf
  dsimp only at hf
  split at hf
  · simp at hf
  · dsimp only at hf
    rcases Option.bind_eq_some.mp hf with ⟨a, _, ha⟩
    split at ha
    · cases ha
    next hanil =>
      injection ha with ha'
      intro h0
      rw [← ha'] at h0
      exact hanil (congrArg String.data h0)

/-- When the parsed query carries a domain or folder operator, the merged
effective filters are nonempty. -/
theorem hasAnyFilter_merge (filters : SearchFilters) (raw : String)
    (hop : (parseQuery raw).domain ≠ none ∨ (parseQuery raw).folder ≠ none) :
    hasAnyFilter (mergeFilters filters (parseQuery raw)) = true := by
  rcases hop with h | h
  · cases hdm : (parseQuery raw).domain with
    | none => exact absurd hdm h
    | some d =>
      have hdne : d ≠ "" := parseQuery_domain_ne_empty raw d hdm
      simp [hasAnyFilter, mergeFilters, hdm, hdne]
  · cases hfm : (parseQuery raw).folder with
    | none => exact absurd hfm h
    | some f =>
      have hfne : f ≠ "" := parseQuery_folder_ne_empty raw f hfm
      simp [hasAnyFilter, mergeFilters, hfm, hfne]

/-- An `if` whose arms are length-bounded under the branch condition. -/
theorem ite_length_le_of {α : Type} {c : Prop} [Decidable c] {n : Nat}
    (A B : List α) (hA : c → A.length ≤ n) (hB : ¬ c → B.length ≤ n) :
    (if c then A else B).length ≤ n := by
  by_cases h : c
  · rw [if_pos h]; exact hA h
  · rw [if_neg h]; exact hB h

/-- An `if` whose arms are pairwise-sorted under the branch condition. -/
theorem ite_pairwise_of {α : Type} {R : α → α → Prop} {c : Prop} [Decidable c]
    (A B : List α) (hA : c → A.Pairwise R) (hB : ¬ c → B.Pairwise R) :
    (if c then A else B).Pairwise R := by
  by_cases h : c
  · rw [if_pos h]; exact hA h
  · rw [if_neg h]; exact hB h

/-- C1 (amended): `search` never returns more than 50 results, and never
more than 10 whenever the effective search text is non-empty (the filter-only
path — empty search text with a query operator — is capped at 50, every
other path at 10). -/
theorem search_result_cap (env : SearchEnv) (query : String)
    (filters : SearchFilters) :
    (search env query filters).length ≤ 50 ∧
    (trimStr (parseQuery (trimStr query)).searchText ≠ "" →
      (search env query filters).length ≤ 10) := by
  constructor
  · simp only [search]
    exact ite_length_le _ _ (by simp)
      (ite_length_le _ _ (length_filterOnlyBranch _ _)
        (ite_length_le _ _
          (le_trans (length_keywordOnlyBranch _ _ _ _) (by omega))
          (le_trans (length_hybridBranch _ _ _ _ _ _) (by omega))))
  · intro hne
    simp only [search]
    refine ite_length_le _ _ (by simp)
      (ite_length_le_of _ _ ?_ (fun _ => ite_length_le _ _
        (length_keywordOnlyBranch _ _ _ _)
        (length_hybridBranch _ _ _ _ _ _)))
    intro hcond
    exfalso
    have h1 : decide (trimStr (parseQuery (trimStr query)).searchText = "") =
        false := decide_eq_false hne
    rw [h1] at hcond
    simp only [Bool.false_and, Bool.or_false, decide_eq_true_eq] at hcond
    rw [hcond, parseQuery_empty] at hne
    exact hne rfl

/-- C1 (counterexample): with eleven bookmarks in folder "Work", the
filter-only query `folder:Work` returns eleven results — more than the 10
the claim allows for every query. -/
theorem search_filter_only_exceeds_ten :
    (search envEleven "folder:Work" ⟨none, none, none⟩).length = 11 := by
  decide

/-- C1 (witness). -/
theorem search_result_cap_witness :
    trimStr (parseQuery (trimStr "pasta")).searchText ≠ "" ∧
    (search envKwOnly "pasta" ⟨none, none, none⟩).length ≤ 10 :=
  ⟨by decide,
   (search_result_cap envKwOnly "pasta" ⟨none, none, none⟩).2 (by decide)⟩

/-- C2 (amended): when the parsed search text is empty, `search` returns the
date-sorted, capped, score-1 "Filtered results" list exactly when a
domain/folder operator was present in the raw query; with no query operator
it returns empty even when the UI supplied a filter. -/
theorem search_filter_only_path (env : SearchEnv) (query : String)
    (filters : SearchFilters)
    (h : trimStr (parseQuery (trimStr query)).searchText = "") :
    ((parseQuery (trimStr query)).domain = none ∧
      (parseQuery (trimStr query)).folder = none →
      search env query filters = []) ∧
    ((parseQuery (trimStr query)).domain ≠ none ∨
      (parseQuery (trimStr query)).folder ≠ none →
      search env query filters = filterOnlyExpected env query filters) := by
  constructor
  · rintro ⟨hd, hf⟩
    simp [search, h, hd, hf]
  · intro hop
    have hQF : ((parseQuery (trimStr query)).domain.isSome ||
        (parseQuery (trimStr query)).folder.isSome) = true := by
      rcases hop with h1 | h1
      · simp [Option.isSome_iff_ne_none, h1]
      · simp [Option.isSome_iff_ne_none, h1]
    have hAF : hasAnyFilter (mergeFilters filters (parseQuery (trimStr query)))
        = true := hasAnyFilter_merge filters (trimStr query) hop
    simp [search, filterOnlyBranch, filterOnlyExpected, h, hQF, hAF,
      FILTER_ONLY_LIMIT]

/-- C2 (counterexample): with the search text empty, no query operator, a
UI folder filter set, and a bookmark matching that filter, `search` returns
the empty list — not the filtered bookmarks the claim promises. -/
theorem search_ui_filter_empty_query_returns_empty :
    search envHybrid "" ⟨some "Recipes", none, none⟩ = [] ∧
    (loadBookmarksAndEmbeddings envHybrid
      ⟨some "Recipes", none, none⟩).1 = [bmPasta] := by
  refine ⟨by decide, by decide⟩

/-- C2 (witness). -/
theorem search_filter_only_path_witness :
    trimStr (parseQuery (trimStr "folder:Recipes")).searchText = "" ∧
    ((parseQuery (trimStr "folder:Recipes")).domain ≠ none ∨
      (parseQuery (trimStr "folder:Recipes")).folder ≠ none) ∧
    search envHybrid "folder:Recipes" ⟨none, none, none⟩ =
      filterOnlyExpected envHybrid "folder:Recipes" ⟨none, none, none⟩ :=
  ⟨by decide, by decide,
   (search_filter_only_path envHybrid "folder:Recipes" ⟨none, none, none⟩
     (by decide)).2 (by decide)⟩

/-- C7 (amended): whenever the filtered universe still has embeddings (so
the hybrid branch runs — and trivially on the empty and filter-only paths),
the list returned by `search` is ordered by final score descending; the
no-embeddings keyword-only branch is excluded, for it returns results in
lexical-hit order. -/
theorem search_sorted_with_embeddings (env : SearchEnv) (query : String)
    (filters : SearchFilters)
    (hs : semanticItemsFrom
      (loadBookmarksAndEmbeddings env
        (mergeFilters filters (parseQuery (trimStr query)))).2 ≠ []) :
    (search env query filters).Pairwise fun r1 r2 => r2.score ≤ r1.score := by
  simp only [search]
  exact ite_pairwise _ _ (by simp)
    (ite_pairwise _ _ (sorted_filterOnlyBranch _ _)
      (ite_pairwise_of _ _
        (fun hc => absurd (List.length_eq_zero.mp hc) hs)
        (fun _ => sorted_hybridBranch _ _ _ _ _ _)))

/-- C7 (counterexample): in the no-embeddings branch the results keep the
lexical-hit order, not final-score order — a junk-titled bookmark with the
higher raw score lands first with final score `0.3`, ahead of a result with
final score `0.405`. -/
theorem keyword_only_branch_unsorted :
    ((search envKwOnly "pasta" ⟨none, none, none⟩).map fun r => r.score) =
      [mkRat 3 10, mkRat 81 200] ∧ (mkRat 3 10 : ℚ) < mkRat 81 200 := by
  refine ⟨by decide, by decide⟩

/-- C7 (witness). -/
theorem search_sorted_with_embeddings_witness :
    semanticItemsFrom
      (loadBookmarksAndEmbeddings envHybrid
        (mergeFilters ⟨none, none, none⟩
          (parseQuery (trimStr "pasta -bonappetit")))).2 ≠ [] ∧
    (search envHybrid "pasta -bonappetit" ⟨none, none, none⟩).Pairwise
      (fun r1 r2 => r2.score ≤ r1.score) :=
  ⟨by decide,
   search_sorted_with_embeddings envHybrid "pasta -bonappetit"
     ⟨none, none, none⟩ (by decide)⟩

/-- C10: exclude/OR validation applies only to lexical hits, never to the
related-tier semantic backfill — concretely, for the query
`pasta -bonappetit` the bookmark whose domain whole-word-matches the
exclude term "bonappetit" is dropped from the lexical hits yet returned by
`search`, tagged `related`, at its cosine similarity `0.28 ≥ 0.15`, while
fewer than 10 strong results exist. -/
theorem related_backfill_ignores_exclude :
    bookmarkMatchesExclude bmBon
      (parseQuery "pasta -bonappetit").excludeTerms = true ∧
    cosineSimilarity [4, -3] [4, 3] = mkRat 7 25 ∧
    RELATED_SEMANTIC_FLOOR ≤ mkRat 7 25 ∧
    ((search envHybrid "pasta -bonappetit" ⟨none, none, none⟩).map fun r =>
      (r.bookmark.id, r.matchTier, r.score)) =
      [(some 1, some MatchTier.strong, 1),
       (some 2, some MatchTier.related, mkRat 7 25)] := by
  refine ⟨by decide, by decide, by decide, by decide⟩

/-- C5 (witness). -/
theorem exclude_correctness_witness :
    (∃ t ∈ (parseQuery "pasta -bonappetit").excludeTerms,
      (termMatchesField t (lowerStr bmBon.title) = true ∨
       termMatchesField t (lowerStr bmBon.url) = true ∨
       termMatchesField t (lowerStr bmBon.folderPath) = true ∨
       termMatchesField t (lowerStr bmBon.domain) = true)) ∧
    ∀ kh ∈ keywordHitsOf [(2, bmBon)] (parseQuery "pasta -bonappetit")
        [(2, 3)],
      mapGet [(2, bmBon)] kh.bookmarkId ≠ some bmBon :=
  ⟨by decide,
   exclude_correctness [(2, bmBon)] (parseQuery "pasta -bonappetit")
     [(2, 3)] bmBon (by decide)⟩

/-- C6 (witness). -/
theorem or_group_correctness_witness :
    ((6, (2 : ℚ)) ∈ [((6 : Nat), (2 : ℚ))]) ∧
    mapGet [(6, bmVue)] 6 = some bmVue ∧
    bookmarkMatchesExclude bmVue
      (parseQuery "react hooks OR vue").excludeTerms = false ∧
    1 < (parseQuery "react hooks OR vue").orGroups.length ∧
    ((∃ kh ∈ keywordHitsOf [(6, bmVue)] (parseQuery "react hooks OR vue")
        [(6, 2)], kh.bookmarkId = (6, (2 : ℚ)).1) ↔
      ∃ g ∈ (parseQuery "react hooks OR vue").orGroups,
        bookmarkMatchesOrGroup bmVue g = true) :=
  ⟨by decide, by decide, by decide, by decide,
   or_group_correctness.2 [(6, bmVue)] (parseQuery "react hooks OR vue")
     [(6, 2)] (6, 2) bmVue (by decide) (by decide) (by decide) (by decide)⟩

/-- C9 (witness). -/
theorem build_failure_not_cached_witness :
    miniIndexInit.cachedIndex = none ∧
    miniIndexInit.indexBuildPromise = none ∧
    awaitResult
      (buildSettles (getMiniIndex miniIndexInit BuildOutcome.fail).1
        miniIndexInit.builds.length)
      miniIndexInit.builds.length = some (Except.error ()) :=
  ⟨rfl, rfl,
   (build_failure_not_cached miniIndexInit (BuildOutcome.ok []) rfl
     rfl).2.2.1⟩
